import Mathlib

/-!
Verification of the preference-elicitation backend
(`src/core/preference_manager.py`, `src/core/elicitation_bot.py`).

The Python code is shallowly embedded: JSON values become the inductive
type `JVal`, a preference record (a Python dict) becomes an association
list `Rec`, the `PreferenceManager` becomes the structure `PM` holding
the in-memory list and the modelled storage file, and the bot methods
become functions over a `BotState`.  External effects (uuid generation,
timestamps, LLM round-trips) are resolved by explicit parameters.
-/

set_option maxRecDepth 4000

/-- JSON values as produced by Python `json.loads` / consumed by
`json.dump`.  Numbers keep their source lexeme (no claim computes with
them).  Objects are insertion-ordered association lists, mirroring
Python dicts. -/
inductive JVal where
  | null : JVal
  | bool : Bool → JVal
  | num : String → JVal
  | str : String → JVal
  | arr : List JVal → JVal
  | obj : List (String × JVal) → JVal

/-- A preference record: a Python dict with string keys
(insertion-ordered association list). -/
abbrev Rec := List (String × JVal)

/-- Python `dict.get(k)`: the value stored at key `k`, if any. -/
def rget (r : Rec) (k : String) : Option JVal :=
  match r with
  | [] => none
  | (k', v) :: rest => if k' = k then some v else rget rest k

/-- The ASCII whitespace characters recognised by Python `str.strip()`
(and by `\s` / JSON whitespace on the ASCII range). -/
def pyIsSpace (c : Char) : Bool :=
  c = ' ' || c = '\t' || c = '\n' || c = '\x0d' || c = '\x0b' || c = '\x0c'

/-- Python `str.strip()` on ASCII whitespace. -/
def pyStrip (s : String) : String :=
  String.mk (((s.toList.dropWhile pyIsSpace).reverse.dropWhile pyIsSpace).reverse)

/-- Lower-case hexadecimal digit (for `n < 16`). -/
def hexDigit (n : Nat) : Char :=
  if n < 10 then Char.ofNat (48 + n) else Char.ofNat (87 + n)

/-- Four lower-case hex digits of `n % 65536`. -/
def hex4 (n : Nat) : String :=
  String.mk [hexDigit (n / 4096 % 16), hexDigit (n / 256 % 16),
             hexDigit (n / 16 % 16), hexDigit (n % 16)]

/-- One character escaped as by CPython `json` with `ensure_ascii=True`:
named escapes for the usual control characters, `\uXXXX` for the other
non-printable or non-ASCII characters (surrogate pairs above the BMP),
everything else literal. -/
def jsonEscapeChar (c : Char) : List Char :=
  if c = '\\' then ['\\', '\\']
  else if c = '"' then ['\\', '"']
  else if c = '\x08' then ['\\', 'b']
  else if c = '\x0c' then ['\\', 'f']
  else if c = '\n' then ['\\', 'n']
  else if c = '\x0d' then ['\\', 'r']
  else if c = '\t' then ['\\', 't']
  else if c.toNat < 32 || c.toNat > 126 then
    if c.toNat ≤ 65535 then '\\' :: 'u' :: (hex4 c.toNat).toList
    else
      let v := c.toNat - 65536
      ('\\' :: 'u' :: (hex4 (55296 + v / 1024)).toList) ++
        ('\\' :: 'u' :: (hex4 (56320 + v % 1024)).toList)
  else [c]

/-- A JSON string literal: quotes around the escaped characters. -/
def jsonQuote (s : String) : String :=
  "\"" ++ String.mk (s.toList.flatMap jsonEscapeChar) ++ "\""

/-- A run of `pad` spaces. -/
def spaces (pad : Nat) : String :=
  String.mk (List.replicate pad ' ')

mutual

/-- Serialisation as by `json.dump(v, f, indent=2)` (CPython defaults:
separators `,` and `: `, newline-and-indent after every item), with the
current indentation width `pad`. -/
def dumpVal (pad : Nat) : JVal → String
  | .null => "null"
  | .bool b => if b then "true" else "false"
  | .num lex => lex
  | .str s => jsonQuote s
  | .arr [] => "[]"
  | .arr (x :: xs) =>
      "[\n" ++ spaces (pad + 2) ++ dumpVal (pad + 2) x ++ dumpArr (pad + 2) xs
        ++ "\n" ++ spaces pad ++ "]"
  | .obj [] => "\x7b\x7d"
  | .obj ((k, v) :: fs) =>
      "\x7b\n" ++ spaces (pad + 2) ++ jsonQuote k ++ ": " ++ dumpVal (pad + 2) v
        ++ dumpObj (pad + 2) fs ++ "\n" ++ spaces pad ++ "\x7d"

/-- Remaining array items, each introduced by `,` newline and indent. -/
def dumpArr (pad : Nat) : List JVal → String
  | [] => ""
  | x :: xs => ",\n" ++ spaces pad ++ dumpVal pad x ++ dumpArr pad xs

/-- Remaining object members, each introduced by `,` newline and indent. -/
def dumpObj (pad : Nat) : List (String × JVal) → String
  | [] => ""
  | (k, v) :: fs =>
      ",\n" ++ spaces pad ++ jsonQuote k ++ ": " ++ dumpVal pad v ++ dumpObj pad fs

end

/-- Top-level `json.dump(v, f, indent=2)` output. -/
def pyDump (v : JVal) : String := dumpVal 0 v

/-- JSON inter-token whitespace. -/
def jsonWsChar (c : Char) : Bool :=
  c = ' ' || c = '\t' || c = '\n' || c = '\x0d'

/-- Skip JSON whitespace. -/
def skipWs (cs : List Char) : List Char := cs.dropWhile jsonWsChar

/-- Value of one hexadecimal digit. -/
def hexToNat (c : Char) : Option Nat :=
  if '0' ≤ c && c ≤ '9' then some (c.toNat - 48)
  else if 'a' ≤ c && c ≤ 'f' then some (c.toNat - 87)
  else if 'A' ≤ c && c ≤ 'F' then some (c.toNat - 55)
  else none

/-- Body of a JSON string literal (opening quote already consumed), as
parsed by CPython `json.loads` in strict mode: named escapes, `\uXXXX`
with surrogate pairs combined, raw control characters rejected.  (CPython
would accept a lone surrogate escape; `Char` cannot hold one, so the
model rejects it — no claim exercises that corner.) -/
def parseStringBody : Nat → List Char → List Char → Option (String × List Char)
  | 0, _, _ => none
  | _ + 1, _, [] => none
  | fuel + 1, acc, c :: rest =>
    if c = '"' then some (String.mk acc.reverse, rest)
    else if c = '\\' then
      match rest with
      | 'u' :: h1 :: h2 :: h3 :: h4 :: rest' =>
        match hexToNat h1, hexToNat h2, hexToNat h3, hexToNat h4 with
        | some a, some b, some c', some d =>
          let n := 4096 * a + 256 * b + 16 * c' + d
          if 55296 ≤ n && n ≤ 56319 then
            match rest' with
            | '\\' :: 'u' :: k1 :: k2 :: k3 :: k4 :: rest'' =>
              match hexToNat k1, hexToNat k2, hexToNat k3, hexToNat k4 with
              | some a', some b', some c'', some d' =>
                let m := 4096 * a' + 256 * b' + 16 * c'' + d'
                if 56320 ≤ m && m ≤ 57343 then
                  parseStringBody fuel
                    (Char.ofNat (65536 + 1024 * (n - 55296) + (m - 56320)) :: acc) rest''
                else none
              | _, _, _, _ => none
            | _ => none
          else if 56320 ≤ n && n ≤ 57343 then none
          else parseStringBody fuel (Char.ofNat n :: acc) rest'
        | _, _, _, _ => none
      | e :: rest' =>
        if e = '"' then parseStringBody fuel ('"' :: acc) rest'
        else if e = '\\' then parseStringBody fuel ('\\' :: acc) rest'
        else if e = '/' then parseStringBody fuel ('/' :: acc) rest'
        else if e = 'b' then parseStringBody fuel ('\x08' :: acc) rest'
        else if e = 'f' then parseStringBody fuel ('\x0c' :: acc) rest'
        else if e = 'n' then parseStringBody fuel ('\n' :: acc) rest'
        else if e = 'r' then parseStringBody fuel ('\x0d' :: acc) rest'
        else if e = 't' then parseStringBody fuel ('\t' :: acc) rest'
        else none
      | [] => none
    else if c.toNat < 32 then none
    else parseStringBody fuel (c :: acc) rest

/-- A JSON number lexeme: `-?(0|[1-9][0-9]*)(\.[0-9]+)?([eE][+-]?[0-9]+)?`. -/
def parseNum (cs : List Char) : Option (String × List Char) :=
  let (sign, cs1) := match cs with
    | '-' :: rest => (['-'], rest)
    | _ => (([] : List Char), cs)
  match cs1 with
  | [] => none
  | d :: rest =>
    if d = '0' ∨ ¬ d.isDigit then
      if d = '0' then
        let (frac, cs2) := parseNumFrac rest
        match frac with
        | none => none
        | some fcs => some (String.mk (sign ++ ['0'] ++ fcs), cs2)
      else none
    else
      let digits := cs1.takeWhile Char.isDigit
      let restInt := cs1.dropWhile Char.isDigit
      let (frac, cs2) := parseNumFrac restInt
      match frac with
      | none => none
      | some fcs => some (String.mk (sign ++ digits ++ fcs), cs2)
where
  /-- Optional fraction and exponent; `none` on a malformed tail. -/
  parseNumFrac (cs : List Char) : Option (List Char) × List Char :=
    let (fpart, cs1) := match cs with
      | '.' :: rest =>
        let ds := rest.takeWhile Char.isDigit
        if ds.isEmpty then (none, cs)
        else (some ('.' :: ds), rest.dropWhile Char.isDigit)
      | _ => (some [], cs)
    match fpart with
    | none => (none, cs)
    | some f =>
      match cs1 with
      | e :: rest =>
        if e = 'e' ∨ e = 'E' then
          let (sgn, rest1) := match rest with
            | '+' :: r => (['+'], r)
            | '-' :: r => (['-'], r)
            | _ => (([] : List Char), rest)
          let ds := rest1.takeWhile Char.isDigit
          if ds.isEmpty then (none, cs)
          else (some (f ++ e :: sgn ++ ds), rest1.dropWhile Char.isDigit)
        else (some f, cs1)
      | [] => (some f, cs1)

/-- Insert a key into an object under construction, as Python dict
assignment: an existing key keeps its position but takes the new value. -/
def insertPair (fs : List (String × JVal)) (k : String) (v : JVal) :
    List (String × JVal) :=
  match fs with
  | [] => [(k, v)]
  | (k', v') :: rest =>
    if k' = k then (k, v) :: rest else (k', v') :: insertPair rest k v

mutual

/-- One JSON value (leading whitespace allowed), as `json.loads`. -/
def parseValue : Nat → List Char → Option (JVal × List Char)
  | 0, _ => none
  | fuel + 1, cs =>
    match skipWs cs with
    | 'n' :: 'u' :: 'l' :: 'l' :: rest => some (.null, rest)
    | 't' :: 'r' :: 'u' :: 'e' :: rest => some (.bool true, rest)
    | 'f' :: 'a' :: 'l' :: 's' :: 'e' :: rest => some (.bool false, rest)
    | '"' :: rest =>
      match parseStringBody (rest.length + 1) [] rest with
      | some (s, rest') => some (.str s, rest')
      | none => none
    | '[' :: rest =>
      (match skipWs rest with
       | ']' :: rest' => some (.arr [], rest')
       | _ => parseElems fuel [] rest)
    | '\x7b' :: rest =>
      (match skipWs rest with
       | '\x7d' :: rest' => some (.obj [], rest')
       | _ => parseMembers fuel [] rest)
    | cs' =>
      match parseNum cs' with
      | some (lex, rest) => some (.num lex, rest)
      | none => none

/-- Array elements after `[` (at least one element present). -/
def parseElems : Nat → List JVal → List Char → Option (JVal × List Char)
  | 0, _, _ => none
  | fuel + 1, acc, cs =>
    match parseValue fuel cs with
    | none => none
    | some (v, rest) =>
      match skipWs rest with
      | ',' :: rest' => parseElems fuel (v :: acc) rest'
      | ']' :: rest' => some (.arr (v :: acc).reverse, rest')
      | _ => none

/-- Object members after an opening brace (at least one member present). -/
def parseMembers : Nat → List (String × JVal) → List Char →
    Option (JVal × List Char)
  | 0, _, _ => none
  | fuel + 1, acc, cs =>
    match skipWs cs with
    | '"' :: rest =>
      (match parseStringBody (rest.length + 1) [] rest with
       | none => none
       | some (k, rest1) =>
         match skipWs rest1 with
         | ':' :: rest2 =>
           (match parseValue fuel rest2 with
            | none => none
            | some (v, rest3) =>
              match skipWs rest3 with
              | ',' :: rest4 => parseMembers fuel (insertPair acc k v) rest4
              | '\x7d' :: rest4 => some (.obj (insertPair acc k v), rest4)
              | _ => none)
         | _ => none)
    | _ => none

end

/-- Model of `json.loads(s)`: parse one JSON document, requiring only whitespace
after it; `none` models `JSONDecodeError`. -/
def pyJsonLoads (s : String) : Option JVal :=
  let cs := s.toList
  match parseValue (2 * cs.length + 2) cs with
  | some (v, rest) => if (skipWs rest).isEmpty then some v else none
  | none => none

/-- The record built by `PreferenceManager.add_preference`:
`{"text": preference_text, "source": source, "id": str(uuid.uuid4())}`
(in that insertion order), with the generated uuid resolved to the
explicit argument `u`. -/
def newPrefRec (preference_text : JVal) (source u : String) : Rec :=
  [("text", preference_text), ("source", .str source), ("id", .str u)]

/-- State of a `PreferenceManager`: the in-memory list `self.preferences`
and the storage file (`none` = file missing). -/
structure PM where
  preferences : List Rec
  file : Option String

/-- Model of `PreferenceManager._save_preferences`: overwrite the whole file with
`json.dump(self.preferences, f, indent=2)`. -/
def savePreferencesFile (s : PM) : PM :=
  { s with file := some (pyDump (.arr (s.preferences.map JVal.obj))) }

/-- Model of `PreferenceManager.add_preference`: append the new record, rewrite
the file, return the record. -/
def addPreference (s : PM) (preference_text : JVal) (source u : String) :
    PM × Rec :=
  let new_pref := newPrefRec preference_text source u
  let s1 := { s with preferences := s.preferences ++ [new_pref] }
  (savePreferencesFile s1, new_pref)

/-- Model of `PreferenceManager.get_preferences`. -/
def getPreferences (s : PM) : List Rec := s.preferences

/-- Model of `PreferenceManager.get_preference_by_id`: first record whose `id`
equals the given string. -/
def getPreferenceById (s : PM) (pref_id : String) : Option Rec :=
  s.preferences.find? (fun p => idEqSelf p pref_id)
where
  idEqSelf (p : Rec) (pref_id : String) : Bool :=
    match rget p "id" with
    | some (.str i) => i == pref_id
    | _ => false

/-- Python `p.get("id") == pref_id` for a string `pref_id`: only a
string value equal to `pref_id` compares equal (a missing key gives
`None`, which never equals a string). -/
def idEq (p : Rec) (pref_id : String) : Bool :=
  match rget p "id" with
  | some (.str i) => i == pref_id
  | _ => false

/-- Model of `PreferenceManager.delete_preference`: keep the records whose id
does not equal `pref_id`; if the list shrank, rewrite the file and
return `true`, else return `false`. -/
def deletePreference (s : PM) (pref_id : String) : PM × Bool :=
  let prefs := s.preferences.filter (fun p => ! idEq p pref_id)
  if prefs.length < s.preferences.length then
    (savePreferencesFile { s with preferences := prefs }, true)
  else
    ({ s with preferences := prefs }, false)

/-- Model of `PreferenceManager._load_preferences` (as used by `__init__`): `[]`
for a missing file; read and strip the contents, `[]` when the result is
empty or the literal two-character object braces, otherwise `json.loads`
with `JSONDecodeError` mapped to `[]`. -/
def loadPreferences (file : Option String) : JVal :=
  match file with
  | none => .arr []
  | some content =>
    let data := pyStrip content
    if data = "" ∨ data = "\x7b\x7d" then .arr []
    else
      match pyJsonLoads data with
      | some v => v
      | none => .arr []

/-- A `PreferenceManager` over a fresh store (no file on disk yet). -/
def emptyPM : PM := { preferences := [], file := none }

/-- The mutating store operations. `add` carries the uuid that
`uuid.uuid4()` returns during that call. -/
inductive POp where
  | add (preference_text : JVal) (source u : String)
  | del (pref_id : String)

/-- One store operation. -/
def pstep (s : PM) : POp → PM
  | .add t src u => (addPreference s t src u).1
  | .del pid => (deletePreference s pid).1

/-- A sequence of store operations. -/
def prun (s : PM) : List POp → PM
  | [] => s
  | op :: ops => prun (pstep s op) ops

/-- The string-valued ids of the stored records, in store order. -/
def idStrs (s : PM) : List String :=
  s.preferences.filterMap (fun r =>
    match rget r "id" with
    | some (.str i) => some i
    | _ => none)

/-- Along the run, every uuid drawn by an `add` is fresh: it differs
from every string id in the store at that moment. -/
def freshRun (s : PM) : List POp → Bool
  | [] => true
  | op :: ops =>
    (match op with
     | .add _ _ u => ! (idStrs s).contains u
     | .del _ => true) && freshRun (pstep s op) ops

/-- Tokens of the (fixed) preference regexes: case-insensitive literals,
alternations of literals, a greedy optional literal, greedy `\s+`, the
lazy capture groups `(.+?)` and `(.*?)`, and the terminator
`(?:\.|\!|\n|$)`. -/
inductive Tok where
  | lit (s : String)
  | alt (ss : List String)
  | optLit (s : String)
  | ws
  | grpPlus
  | grpStar
  | term

mutual

/-- Anchored match of a token list at the start of `input`, with
CPython `re` backtracking priority (leftmost alternative first, lazy
groups shortest first, greedy pieces longest first).  Returns the
captured groups in order and the remaining input after the match.

The recursion is paced by `fuel`, decremented on every call so the
functions reduce inside the kernel; every call strictly decreases the
lexicographic measure (input length, tokens left, phase, alternatives
left) whose components are bounded by the input length, ten, three and
eight, so any fuel of at least `240 * (input length + 1)` is never
exhausted (`regexFuel` supplies more). -/
def matchToks : Nat → List Tok → List Char →
    Option (List (List Char) × List Char)
  | 0, _, _ => none
  | _ + 1, [], input => some ([], input)
  | fuel + 1, .lit s :: toks, input => litGo fuel s.toList toks input
  | fuel + 1, .alt ss :: toks, input => altGo fuel toks input ss
  | fuel + 1, .optLit s :: toks, input =>
    litGo fuel s.toList toks input <|> matchToks fuel toks input
  | fuel + 1, .ws :: toks, c :: rest =>
    if pyIsSpace c then wsGo fuel toks rest else none
  | _ + 1, .ws :: _, [] => none
  | fuel + 1, .grpPlus :: toks, c :: rest =>
    if c = '\n' then none else grpGo fuel toks [c] rest
  | _ + 1, .grpPlus :: _, [] => none
  | fuel + 1, .grpStar :: toks, input => grpGo fuel toks [] input
  | fuel + 1, .term :: toks, input => termGo fuel toks input

/-- Consume the characters of a literal, case-insensitively
(`re.IGNORECASE` on the ASCII range), then match the rest of the
pattern. -/
def litGo : Nat → List Char → List Tok → List Char →
    Option (List (List Char) × List Char)
  | 0, _, _, _ => none
  | fuel + 1, [], toks, input => matchToks fuel toks input
  | _ + 1, _ :: _, _, [] => none
  | fuel + 1, c :: ps, toks, d :: rest =>
    if c.toLower = d.toLower then litGo fuel ps toks rest else none

/-- Alternation of literals: try each alternative in order, with full
backtracking into the rest of the pattern. -/
def altGo : Nat → List Tok → List Char → List String →
    Option (List (List Char) × List Char)
  | 0, _, _, _ => none
  | _ + 1, _, _, [] => none
  | fuel + 1, toks, input, s :: ss' =>
    litGo fuel s.toList toks input <|> altGo fuel toks input ss'

/-- Greedy `\s+` after its first character: prefer consuming further
whitespace, backtracking to shorter runs. -/
def wsGo : Nat → List Tok → List Char →
    Option (List (List Char) × List Char)
  | 0, _, _ => none
  | fuel + 1, toks, c :: rest =>
    if pyIsSpace c then wsGo fuel toks rest <|> matchToks fuel toks (c :: rest)
    else matchToks fuel toks (c :: rest)
  | fuel + 1, toks, [] => matchToks fuel toks []

/-- The terminator `(?:\.|\!|\n|$)`, alternatives in pattern order;
`$` (no `re.MULTILINE`) matches at the end of the subject or just
before a trailing newline, consuming nothing. -/
def termGo : Nat → List Tok → List Char →
    Option (List (List Char) × List Char)
  | 0, _, _ => none
  | fuel + 1, toks, '.' :: rest => matchToks fuel toks rest
  | fuel + 1, toks, '!' :: rest => matchToks fuel toks rest
  | fuel + 1, toks, ['\n'] =>
    matchToks fuel toks [] <|> matchToks fuel toks ['\n']
  | fuel + 1, toks, '\n' :: c :: rest => matchToks fuel toks (c :: rest)
  | fuel + 1, toks, [] => matchToks fuel toks []
  | _ + 1, _, _ :: _ => none

/-- Lazy capture group with `acc` holding the (reversed) characters
taken so far: prefer stopping here, extending by one non-newline
character on failure. -/
def grpGo (fuel : Nat) (toks : List Tok) (acc : List Char)
    (input : List Char) : Option (List (List Char) × List Char) :=
  match fuel with
  | 0 => none
  | fuel + 1 =>
    match matchToks fuel toks input with
    | some (caps, rem) => some (acc.reverse :: caps, rem)
    | none => grpExtend fuel toks acc input

/-- Extend a lazy capture group by one character (dot does not match a
newline). -/
def grpExtend : Nat → List Tok → List Char → List Char →
    Option (List (List Char) × List Char)
  | 0, _, _, _ => none
  | fuel + 1, toks, acc, c :: rest =>
    if c = '\n' then none else grpGo fuel toks (c :: acc) rest
  | _ + 1, _, _, [] => none

end

mutual

/-- Model of `re.finditer`: scan left to right, yield the captures of each
non-overlapping match and continue after its end (advancing one
position past an empty match, which no preference pattern can in fact
produce).  `fuel` paces the scan; `regexFuel` is always enough, since
the scan advances at every step. -/
def findIter (fuel : Nat) (toks : List Tok) (input : List Char) :
    List (List (List Char)) :=
  match fuel with
  | 0 => []
  | fuel + 1 =>
    match matchToks fuel toks input with
    | some (caps, rem) =>
      if rem.length < input.length then caps :: findIter fuel toks rem
      else caps :: findIterNext fuel toks input
    | none => findIterNext fuel toks input

/-- Resume the scan one position further right. -/
def findIterNext : Nat → List Tok → List Char → List (List (List Char))
  | 0, _, _ => []
  | _ + 1, _, [] => []
  | fuel + 1, toks, _ :: rest => findIter fuel toks rest

end

/-- Fuel that the backtracking search of these patterns can never
exhaust (see `matchToks`). -/
def regexFuel (input : List Char) : Nat := 1000 * (input.length + 1)

/-- The seventeen regex patterns of
`ElicitationBot._extract_preferences_with_pattern`, tokenised in source
order.  The extracted preference is always group 1, the first capture
group. -/
def preferencePatterns : List (List Tok) := [
  [.lit "I ", .optLit "really ",
   .alt ["like", "love", "enjoy", "prefer", "adore", "am fond of", "favor"],
   .lit " ", .grpPlus, .term],
  [.lit "I\x27m ", .alt ["a big fan of", "passionate about", "interested in"],
   .lit " ", .grpPlus, .term],
  [.lit "My favorite ", .grpPlus, .lit " ", .alt ["is", "are"], .lit " ",
   .grpPlus, .term],
  [.lit "I ", .alt ["hate", "dislike", "can\x27t stand", "despise"],
   .lit " ", .grpPlus, .term],
  [.lit "I ", .alt ["wish", "want", "would like", "hope", "desire"],
   .lit " ", .grpPlus, .term],
  [.lit "I ", .alt ["believe", "think", "feel", "am convinced"], .lit " ",
   .optLit "that ", .grpPlus, .term],
  [.lit "I\x27m ", .alt ["attracted to", "into", "turned on by"],
   .lit " ", .grpPlus, .term],
  [.lit "I ", .alt ["always", "usually", "often", "sometimes", "rarely", "never"],
   .lit " ", .grpPlus, .term],
  [.lit "I", .ws, .lit "prefer", .ws, .grpStar, .term],
  [.lit "I", .ws, .lit "need", .ws, .grpStar, .term],
  [.lit "I", .ws, .lit "would", .ws, .lit "prefer", .ws, .grpStar, .term],
  [.lit "I", .ws, .lit "don\x27t", .ws, .lit "like", .ws, .grpStar, .term],
  [.lit "I", .ws, .lit "appreciate", .ws, .grpStar, .term],
  [.lit "I", .ws, .lit "value", .ws, .grpStar, .term],
  [.lit "I", .ws, .lit "hate", .ws, .lit "when", .ws, .grpStar, .term],
  [.lit "it", .ws, .lit "bothers", .ws, .lit "me", .ws, .lit "when", .ws,
   .grpStar, .term],
  [.lit "it", .ws, .lit "annoys", .ws, .lit "me", .ws, .lit "when", .ws,
   .grpStar, .term]]

/-- Model of `ElicitationBot._extract_preferences_with_pattern`: for each pattern
in order, for each match in scan order, if there is a capture group and
the raw group 1 is longer than five characters, append the stripped
group 1. -/
def extractPrefs (text : String) : List String :=
  preferencePatterns.flatMap (fun toks =>
    (findIter (regexFuel text.toList) toks text.toList).filterMap (fun caps =>
      match caps with
      | g1 :: _ =>
        if g1.length > 5 then some (pyStrip (String.mk g1)) else none
      | [] => none))

/-- Drop a literal, case-sensitively. -/
def dropLit : List Char → List Char → Option (List Char)
  | [], input => some input
  | _ :: _, [] => none
  | p :: ps, c :: cs => if p = c then dropLit ps cs else none

/-- Model of the search for a PREFERENCE line: first position where the
literal is followed by at least one non-newline character; group 1 is
the (greedy) run of non-newline characters after the literal. -/
def searchPrefLine : List Char → Option (List Char)
  | [] => none
  | c :: rest =>
    match dropLit "PREFERENCE: ".toList (c :: rest) with
    | some rest' =>
      let g := rest'.takeWhile (fun d => d ≠ '\n')
      if g.isEmpty then searchPrefLine rest else some g
    | none => searchPrefLine rest

/-- The post-processing of `ElicitationBot._extract_preference_from_response`
applied to the text returned by the LLM: extract the `PREFERENCE:` line,
strip it, map the sentinel `NONE` to no preference. -/
def extractPreferenceFromResponse (extraction_response : String) :
    Option String :=
  match searchPrefLine extraction_response.toList with
  | none => none
  | some g =>
    let preference := pyStrip (String.mk g)
    if preference = "NONE" then none else some preference

/-- One chat message (a `{"role": ..., "content": ...}` dict). -/
structure Msg where
  role : String
  content : String

/-- State of an `ElicitationBot`: its `PreferenceManager` and the
per-user conversation histories. -/
structure BotState where
  pm : PM
  conversations : List (String × List Msg)

/-- Model of `ElicitationBot.save_preference`.  Here `u1` resolves the bot-level
`uuid.uuid4()`, `ts` the `get_timestamp()` call, and `u2` the uuid drawn
inside `add_preference`.  Note the source call
`self.preference_manager.add_preference(preference)` passes the whole
`preference` dict as `preference_text` and lets `source` default to
`"manual_chat"`. -/
def botSavePreference (s : BotState) (preference_text source : String)
    (u1 ts u2 : String) : BotState × Option Rec :=
  if preference_text = "" ∨ (pyStrip preference_text).length < 3 then
    (s, none)
  else
    let preference : Rec :=
      [("id", .str u1), ("text", .str preference_text),
       ("source", .str source), ("timestamp", .str ts)]
    let pm' := (addPreference s.pm (.obj preference) "manual_chat" u2).1
    ({ s with pm := pm' }, some preference)

/-- A supply of uuids and timestamps: component `i` feeds the `i`-th
`save_preference` call of one `process_message` invocation. -/
structure SaveEnv where
  u1 : Nat → String
  ts : Nat → String
  u2 : Nat → String

/-- The `i`-th `save_preference` call under the supply `env`. -/
def botSaveAt (env : SaveEnv) (i : Nat) (s : BotState)
    (preference_text source : String) : BotState × Option Rec :=
  botSavePreference s preference_text source (env.u1 i) (env.ts i) (env.u2 i)

/-- The conversation history of `user_id` (empty for a new user). -/
def convOf (s : BotState) (uid : String) : List Msg :=
  match s.conversations.lookup uid with
  | some ms => ms
  | none => []

/-- Store the conversation history of a user (insert or update in place). -/
def setAssoc : List (String × List Msg) → String → List Msg →
    List (String × List Msg)
  | [], uid, ms => [(uid, ms)]
  | (k, v) :: rest, uid, ms =>
    if k = uid then (k, ms) :: rest else (k, v) :: setAssoc rest uid ms

/-- Update the conversation of one user in the bot state. -/
def setConv (s : BotState) (uid : String) (ms : List Msg) : BotState :=
  { s with conversations := setAssoc s.conversations uid ms }

/-- Model of `ElicitationBot.process_message`.  External effects are resolved by
parameters: `env` supplies the uuids and timestamps consumed by the
`save_preference` calls of this invocation, `llmExtract` is the outcome
of `await _extract_preference_from_response(message)` (`.error` models
an exception escaping it, `.ok` its return value), and `llmResponse` is
the reply produced by `llm.generate_response` on the last ten
conversation messages.  Returns the new state and the
`(assistant_response, extracted_preference)` pair. -/
def processMessage (s : BotState) (user_id message : String)
    (llmExtract : Except String (Option String)) (llmResponse : String)
    (env : SaveEnv) : BotState × String × Option String :=
  let s1 := setConv s user_id (convOf s user_id ++ [⟨"user", message⟩])
  let patternPrefs := extractPrefs message
  let sk := patternPrefs.foldl
    (fun (acc : BotState × Nat) p =>
      ((botSaveAt env acc.2 acc.1 p "pattern_detected").1, acc.2 + 1))
    (s1, 0)
  let sd :=
    match llmExtract with
    | .ok (some lp) =>
      if lp ≠ "" ∧ lp ≠ "NONE" then
        ((botSaveAt env sk.2 sk.1 lp "llm_detected").1, some lp)
      else (sk.1, patternPrefs.head?)
    | .ok none => (sk.1, patternPrefs.head?)
    | .error _ => (sk.1, patternPrefs.head?)
  let s3 := setConv sd.1 user_id
    (convOf sd.1 user_id ++ [⟨"assistant", llmResponse⟩])
  (s3, llmResponse, sd.2)

/-- A bot over a fresh store and no conversations. -/
def emptyBot : BotState := { pm := emptyPM, conversations := [] }

/-- Dropping a satisfied run twice equals dropping it once. -/
theorem dropWhile_idem (p : Char → Bool) (l : List Char) :
    (l.dropWhile p).dropWhile p = l.dropWhile p := by
  induction l with
  | nil => rfl
  | cons c cs ih =>
    rw [List.dropWhile_cons]
    split
    · exact ih
    · rw [List.dropWhile_cons]
      simp_all

/-- A nonempty `dropWhile` result starts with a character that fails
the predicate. -/
theorem dropWhile_head_false (p : Char → Bool) (l : List Char) (c : Char)
    (cs : List Char) (h : l.dropWhile p = c :: cs) : p c = false := by
  induction l with
  | nil => simp at h
  | cons d ds ih =>
    rw [List.dropWhile_cons] at h
    split at h
    · exact ih h
    · cases h
      simp_all

/-- Python `strip()` is idempotent. -/
theorem pyStrip_idem (s : String) : pyStrip (pyStrip s) = pyStrip s := by
  unfold pyStrip
  congr 1
  set l1 := s.toList.dropWhile pyIsSpace with hl1
  set l2 := (l1.reverse.dropWhile pyIsSpace).reverse with hl2
  have htl : (String.mk l2).toList = l2 := rfl
  rw [htl]
  have h2 : l2.dropWhile pyIsSpace = l2 := by
    cases hc : l2 with
    | nil => rfl
    | cons c cs =>
      have hpre : l2 <+: l1 := by
        have hsuf : List.dropWhile pyIsSpace l1.reverse <:+ l1.reverse :=
          List.dropWhile_suffix pyIsSpace
        have h := List.reverse_prefix.mpr hsuf
        rw [List.reverse_reverse] at h
        exact h
      rw [hc] at hpre
      obtain ⟨t, ht⟩ := hpre
      have hcfalse : pyIsSpace c = false := by
        cases hl : l1 with
        | nil => rw [hl] at ht; simp at ht
        | cons d ds =>
          rw [hl] at ht
          have hd : c = d := by
            have := ht
            injection this
          subst hd
          exact dropWhile_head_false pyIsSpace s.toList c ds (by rw [← hl1, hl])
      rw [List.dropWhile_cons, hcfalse]
      simp
  rw [h2]
  have h3 : l2.reverse.dropWhile pyIsSpace = l2.reverse := by
    rw [hl2, List.reverse_reverse]
    exact dropWhile_idem pyIsSpace l1.reverse
  rw [h3, hl2, List.reverse_reverse]

/-- Every preference returned by the pattern extractor is already
stripped (the extractor appends `match.group(1).strip()`). -/
theorem extractPrefs_stripped (msg p : String) (h : p ∈ extractPrefs msg) :
    pyStrip p = p := by
  unfold extractPrefs at h
  rw [List.mem_flatMap] at h
  obtain ⟨toks, -, hmem⟩ := h
  rw [List.mem_filterMap] at hmem
  obtain ⟨caps, -, hg⟩ := hmem
  cases caps with
  | nil => simp at hg
  | cons g1 rest =>
    simp only at hg
    split at hg
    · injection hg with hg'
      rw [← hg']
      exact pyStrip_idem _
    · simp at hg

/-- Some stored manager record carries, as its `text` object, a
bot-level `save_preference` record with the given preference text and
source tag. -/
def savedWith (s : BotState) (p src : String) : Prop :=
  ∃ r ∈ s.pm.preferences, ∃ br : Rec,
    rget r "text" = some (.obj br) ∧
    rget br "text" = some (.str p) ∧
    rget br "source" = some (.str src)

/-- The method `save_preference` never removes a stored record. -/
theorem save_keeps (s : BotState) (q src u1 ts u2 : String) (r : Rec)
    (h : r ∈ s.pm.preferences) :
    r ∈ (botSavePreference s q src u1 ts u2).1.pm.preferences := by
  unfold botSavePreference
  split
  · exact h
  · exact List.mem_append_left _ h

/-- The predicate `savedWith` is preserved by further `save_preference` calls. -/
theorem savedWith_save (s : BotState) (p src q qsrc u1 ts u2 : String)
    (h : savedWith s p src) :
    savedWith (botSavePreference s q qsrc u1 ts u2).1 p src := by
  obtain ⟨r, hr, br, h1, h2, h3⟩ := h
  exact ⟨r, save_keeps s q qsrc u1 ts u2 r hr, br, h1, h2, h3⟩

/-- A `save_preference` call that passes the length validation stores a
record carrying its preference text and source. -/
theorem save_adds (s : BotState) (p src u1 ts u2 : String)
    (h : ¬(p = "" ∨ (pyStrip p).length < 3)) :
    savedWith (botSavePreference s p src u1 ts u2).1 p src := by
  unfold botSavePreference
  rw [if_neg h]
  refine ⟨newPrefRec
      (.obj [("id", .str u1), ("text", .str p),
             ("source", .str src), ("timestamp", .str ts)]) "manual_chat" u2,
    List.mem_append_right _ (List.mem_singleton.mpr rfl),
    [("id", .str u1), ("text", .str p),
     ("source", .str src), ("timestamp", .str ts)], rfl, rfl, rfl⟩

/-- Along the `save_preference` fold of `process_message`: existing
records survive, and every valid preference in the list ends up
stored. -/
theorem fold_saves (env : SaveEnv) (src : String) (ps : List String) :
    ∀ (s : BotState) (k : Nat),
      (∀ r ∈ s.pm.preferences,
        r ∈ (ps.foldl (fun (acc : BotState × Nat) p =>
          ((botSaveAt env acc.2 acc.1 p src).1, acc.2 + 1)) (s, k)).1.pm.preferences) ∧
      (∀ p ∈ ps, ¬(p = "" ∨ (pyStrip p).length < 3) →
        savedWith (ps.foldl (fun (acc : BotState × Nat) p =>
          ((botSaveAt env acc.2 acc.1 p src).1, acc.2 + 1)) (s, k)).1 p src) := by
  induction ps with
  | nil =>
    intro s k
    exact ⟨fun r h => h, fun p hp => absurd hp (List.not_mem_nil p)⟩
  | cons q qs ih =>
    intro s k
    simp only [List.foldl_cons]
    constructor
    · intro r hr
      exact (ih _ _).1 r
        (save_keeps s q src (env.u1 k) (env.ts k) (env.u2 k) r hr)
    · intro p hp hval
      rcases List.mem_cons.mp hp with rfl | hp'
      · have h0 : savedWith (botSaveAt env k s p src).1 p src :=
          save_adds s p src (env.u1 k) (env.ts k) (env.u2 k) hval
        obtain ⟨r, hr, br, h1, h2, h3⟩ := h0
        exact ⟨r, (ih _ _).1 r hr, br, h1, h2, h3⟩
      · exact (ih _ _).2 p hp' hval

/-- A filter that did not shorten the list kept every element. -/
theorem filter_eq_of_not_lt {α : Type} {l : List α} {q : α → Bool}
    (h : ¬ (l.filter q).length < l.length) : l.filter q = l := by
  rw [List.filter_eq_self]
  intro a ha
  by_contra hq
  exact h (List.length_filter_lt_length_iff_exists.mpr ⟨a, ha, hq⟩)

/-- C4: `add_preference` appends the new record at the end of the list,
leaving the previously stored records unchanged and in order, returns
that record, and `get_preferences` returns the list in insertion
order. -/
theorem addPreference_appends (s : PM) (t : JVal) (src u : String) :
    (addPreference s t src u).1.preferences =
      s.preferences ++ [newPrefRec t src u] ∧
    (addPreference s t src u).2 = newPrefRec t src u ∧
    ∀ s' : PM, getPreferences s' = s'.preferences :=
  ⟨rfl, rfl, fun _ => rfl⟩

/-- C5: after every `add_preference`, and after every
`delete_preference` that removed a record, the storage file holds
exactly the `json.dump(..., indent=2)` serialisation of the whole
current in-memory list. -/
theorem file_rewritten_on_mutation (s : PM) (t : JVal) (src u pid : String) :
    (addPreference s t src u).1.file =
      some (pyDump (.arr ((addPreference s t src u).1.preferences.map JVal.obj))) ∧
    ((deletePreference s pid).2 = true →
      (deletePreference s pid).1.file =
        some (pyDump (.arr ((deletePreference s pid).1.preferences.map JVal.obj)))) := by
  refine ⟨rfl, ?_⟩
  simp only [deletePreference]
  split
  · intro _
    rfl
  · intro h
    exact absurd h (by simp)

/-- Witness for C5 at a concrete store and a delete that removes. -/
theorem file_rewritten_on_mutation_witness :
    (deletePreference ⟨[newPrefRec (.str "a") "manual_chat" "u1"], none⟩ "u1").1.file =
      some (pyDump (.arr ((deletePreference
        ⟨[newPrefRec (.str "a") "manual_chat" "u1"], none⟩ "u1").1.preferences.map JVal.obj))) :=
  (file_rewritten_on_mutation ⟨[newPrefRec (.str "a") "manual_chat" "u1"], none⟩
    (.str "b") "manual_chat" "u2" "u1").2 rfl

/-- C8: when the LLM extraction step raises, `process_message` catches
the exception and still returns the generated response together with
the first pattern-extracted preference (`none` when the patterns found
nothing). -/
theorem processMessage_llm_error_handling (s : BotState)
    (uid msg e resp : String) (env : SaveEnv) :
    (processMessage s uid msg (.error e) resp env).2.1 = resp ∧
    (processMessage s uid msg (.error e) resp env).2.2 =
      (extractPrefs msg).head? :=
  ⟨rfl, rfl⟩

/-- C9: an empty preference text, or one whose stripped form is shorter
than three characters, makes `save_preference` return `None` without
touching the manager state (list or file). -/
theorem savePreference_rejects_short_input (s : BotState)
    (t src u1 ts u2 : String) (h : t = "" ∨ (pyStrip t).length < 3) :
    botSavePreference s t src u1 ts u2 = (s, none) := by
  unfold botSavePreference
  rw [if_pos h]

/-- Witness for C9 at the two-character input `ab`. -/
theorem savePreference_rejects_short_input_witness :
    botSavePreference emptyBot "ab" "story_detected" "u1" "t1" "u2" =
      (emptyBot, none) :=
  savePreference_rejects_short_input emptyBot "ab" "story_detected" "u1" "t1" "u2"
    (Or.inr (by decide))

/-- C10: `delete_preference` keeps exactly the records whose id does
not equal the argument (in order), returns `True` iff some record
matched, and on `False` leaves the state (list and file) unchanged. -/
theorem deletePreference_spec (s : PM) (pid : String) :
    (deletePreference s pid).1.preferences =
      s.preferences.filter (fun p => ! idEq p pid) ∧
    ((deletePreference s pid).2 = true ↔
      ∃ r ∈ s.preferences, idEq r pid = true) ∧
    ((deletePreference s pid).2 = false → (deletePreference s pid).1 = s) := by
  simp only [deletePreference]
  split
  · rename_i hlt
    refine ⟨rfl, ⟨fun _ => ?_, fun _ => rfl⟩, fun h => absurd h (by simp)⟩
    obtain ⟨x, hx, hq⟩ := List.length_filter_lt_length_iff_exists.mp hlt
    exact ⟨x, hx, by simpa using hq⟩
  · rename_i hlt
    have heq : s.preferences.filter (fun p => ! idEq p pid) = s.preferences :=
      filter_eq_of_not_lt hlt
    refine ⟨rfl, ⟨fun h => absurd h (by simp), fun hex => ?_⟩, fun _ => ?_⟩
    · obtain ⟨r, hr, hid⟩ := hex
      have hkeep := List.filter_eq_self.mp heq r hr
      simp [hid] at hkeep
    · cases s
      simp only at heq ⊢
      simp [heq]

/-- Witness for C10: deleting from an empty store returns `False` and
changes nothing. -/
theorem deletePreference_spec_witness :
    (deletePreference emptyPM "u1").1 = emptyPM :=
  (deletePreference_spec emptyPM "u1").2.2 rfl

/-- C2 counterexample: the record stored by an `add_preference` is no
longer in the list after `delete_preference` of its id, so the store is
not append-only. -/
theorem delete_removes_added_record :
    (pstep emptyPM (.add (.str "tea") "manual_chat" "u1")).preferences =
      [newPrefRec (.str "tea") "manual_chat" "u1"] ∧
    (pstep (pstep emptyPM (.add (.str "tea") "manual_chat" "u1"))
        (.del "u1")).preferences = [] :=
  ⟨rfl, rfl⟩

/-- C2 (amended): the store is append-only except for
`delete_preference`: a stored record survives every operation other
than a delete whose id equals the id of the record. -/
theorem store_append_only_except_delete (s : PM) (op : POp) (r : Rec)
    (hr : r ∈ s.preferences)
    (hop : ∀ pid, op = .del pid → idEq r pid = false) :
    r ∈ (pstep s op).preferences := by
  cases op with
  | add t src u => exact List.mem_append_left _ hr
  | del pid =>
    have hid := hop pid rfl
    simp only [pstep, deletePreference]
    split
    · exact List.mem_filter.mpr ⟨hr, by simp [hid]⟩
    · exact List.mem_filter.mpr ⟨hr, by simp [hid]⟩

/-- Witness for the amended C2: a record survives a delete aimed at a
different id. -/
theorem store_append_only_except_delete_witness :
    newPrefRec (.str "t") "manual_chat" "u1" ∈
      (pstep ⟨[newPrefRec (.str "t") "manual_chat" "u1"], none⟩
        (.del "u9")).preferences :=
  store_append_only_except_delete _ (.del "u9") _
    (List.mem_singleton.mpr rfl) (fun _ h => by cases h; rfl)

/-- Adding a preference appends its uuid to the stored string ids. -/
theorem idStrs_add (s : PM) (t : JVal) (src u : String) :
    idStrs (pstep s (.add t src u)) = idStrs s ++ [u] := by
  simp only [pstep, addPreference, savePreferencesFile, idStrs]
  rw [List.filterMap_append]
  rfl

/-- Deleting only removes stored string ids. -/
theorem idStrs_del_sublist (s : PM) (pid : String) :
    List.Sublist (idStrs (pstep s (.del pid))) (idStrs s) := by
  simp only [pstep, deletePreference, idStrs]
  split
  · exact (List.filter_sublist _).filterMap _
  · exact (List.filter_sublist _).filterMap _

/-- C3: from a store with pairwise-distinct string ids, any sequence of
`add_preference` and `delete_preference` operations whose generated
uuids are fresh keeps the string ids pairwise distinct. -/
theorem store_ids_nodup_invariant (s0 : PM) (ops : List POp)
    (h0 : (idStrs s0).Nodup) (hf : freshRun s0 ops = true) :
    (idStrs (prun s0 ops)).Nodup := by
  induction ops generalizing s0 with
  | nil => exact h0
  | cons op rest ih =>
    rw [freshRun.eq_def] at hf
    cases op with
    | add t src u =>
      dsimp only at hf
      rw [Bool.and_eq_true] at hf
      obtain ⟨hop, hrest⟩ := hf
      refine ih (pstep s0 (.add t src u)) ?_ hrest
      rw [idStrs_add]
      simp only [Bool.not_eq_true'] at hop
      have hu : u ∉ idStrs s0 := by
        intro hm
        have h2 := List.elem_iff.mpr hm
        simp only [List.contains] at hop
        simp [h2] at hop
        exact hop hm
      simp [List.nodup_append, h0, hu]
    | del pid =>
      dsimp only at hf
      rw [Bool.and_eq_true] at hf
      obtain ⟨-, hrest⟩ := hf
      exact ih (pstep s0 (.del pid)) (h0.sublist (idStrs_del_sublist s0 pid)) hrest

/-- Witness for C3: two adds with fresh uuids and a delete, from the
empty store. -/
theorem store_ids_nodup_invariant_witness :
    (idStrs (prun emptyPM
      [.add (.str "a") "manual_chat" "u1",
       .add (.str "b") "manual_chat" "u2",
       .del "u1"])).Nodup :=
  store_ids_nodup_invariant emptyPM _ (by decide) (by decide)

/-- C6: at startup the list is loaded wholesale from the JSON document:
a missing file, blank contents, the literal empty-object text, or
invalid JSON give the empty list (without raising), and valid JSON
gives its parsed value. -/
theorem loadPreferences_spec (file : Option String) :
    (file = none → loadPreferences file = .arr []) ∧
    (∀ c, file = some c → pyStrip c = "" → loadPreferences file = .arr []) ∧
    (∀ c, file = some c → pyStrip c = "\x7b\x7d" →
      loadPreferences file = .arr []) ∧
    (∀ c, file = some c → pyJsonLoads (pyStrip c) = none →
      loadPreferences file = .arr []) ∧
    (∀ c v, file = some c → pyStrip c ≠ "" → pyStrip c ≠ "\x7b\x7d" →
      pyJsonLoads (pyStrip c) = some v → loadPreferences file = v) := by
  refine ⟨fun h => by rw [h]; rfl,
    fun c hc hs => ?_, fun c hc hs => ?_, fun c hc hp => ?_,
    fun c v hc h1 h2 hp => ?_⟩
  · subst hc; simp [loadPreferences, hs]
  · subst hc; simp [loadPreferences, hs]
  · subst hc
    simp only [loadPreferences]
    split
    · rfl
    · rw [hp]
  · subst hc
    simp only [loadPreferences]
    rw [if_neg (not_or.mpr ⟨h1, h2⟩), hp]

/-- Witness for C6: a concrete document parses to its JSON value. -/
theorem loadPreferences_spec_witness :
    loadPreferences (some " [1] ") = .arr [.num "1"] :=
  (loadPreferences_spec (some " [1] ")).2.2.2.2 " [1] " (.arr [.num "1"]) rfl
    (by decide) (by decide) rfl

/-- Updating a conversation does not touch the preference manager. -/
theorem savedWith_setConv (x : BotState) (u : String) (m : List Msg)
    (p src : String) : savedWith (setConv x u m) p src ↔ savedWith x p src :=
  Iff.rfl

/-- C1 (evaluating the code at the failing input): `save_preference("I
love hiking", "story_detected")` persists a manager record whose `text`
field is the whole bot-level dict — not the preference string — and
whose `source` is the defaulted `"manual_chat"` — not
`"story_detected"`. -/
theorem savePreference_stores_nested_record :
    ((botSavePreference emptyBot "I love hiking" "story_detected"
        "u1" "t1" "u2").1.pm.preferences.map (fun r => rget r "text")) =
      [some (.obj [("id", .str "u1"), ("text", .str "I love hiking"),
                   ("source", .str "story_detected"), ("timestamp", .str "t1")])] ∧
    ((botSavePreference emptyBot "I love hiking" "story_detected"
        "u1" "t1" "u2").1.pm.preferences.map (fun r => rget r "source")) =
      [some (.str "manual_chat")] ∧
    some (JVal.obj [("id", .str "u1"), ("text", .str "I love hiking"),
                    ("source", .str "story_detected"), ("timestamp", .str "t1")]) ≠
      some (JVal.str "I love hiking") ∧
    some (JVal.str "manual_chat") ≠ some (JVal.str "story_detected") := by
  refine ⟨rfl, rfl, by simp, ?_⟩
  intro h
  injection h with h1
  injection h1 with h2
  exact absurd h2 (by decide)

/-- C7 counterexample: on this message the pattern extractor produces
the preference `ab`, yet `process_message` persists nothing — the
length-3 validation in `save_preference` silently drops it, leaving the
store and file untouched. -/
theorem processMessage_drops_short_extraction :
    extractPrefs "I like   ab  ." = ["ab"] ∧
    (processMessage emptyBot "user1" "I like   ab  ." (.ok none) "resp"
        ⟨fun _ => "u1", fun _ => "t1", fun _ => "u2"⟩).1.pm.preferences = [] ∧
    (processMessage emptyBot "user1" "I like   ab  ." (.ok none) "resp"
        ⟨fun _ => "u1", fun _ => "t1", fun _ => "u2"⟩).1.pm.file = none :=
  ⟨rfl, rfl, rfl⟩

/-- C7 (amended): `process_message` persists every pattern-extracted
preference of length at least three (extractions are already stripped),
and the LLM preference when it is neither empty nor the `NONE` sentinel
and its stripped form has length at least three; each lands in the
store wrapped as the `text` object of a manager record. -/
theorem processMessage_saves_valid_preferences (s : BotState)
    (uid msg : String) (llmExtract : Except String (Option String))
    (resp : String) (env : SaveEnv) :
    (∀ p ∈ extractPrefs msg, 3 ≤ p.length →
      savedWith (processMessage s uid msg llmExtract resp env).1
        p "pattern_detected") ∧
    (∀ lp, llmExtract = .ok (some lp) → lp ≠ "" → lp ≠ "NONE" →
      3 ≤ (pyStrip lp).length →
      savedWith (processMessage s uid msg llmExtract resp env).1
        lp "llm_detected") := by
  constructor
  · intro p hp hlen
    have hstrip := extractPrefs_stripped msg p hp
    have hval : ¬(p = "" ∨ (pyStrip p).length < 3) := by
      rintro (rfl | hlt)
      · have hz : ("" : String).length = 0 := rfl
        omega
      · rw [hstrip] at hlt
        omega
    have h1 := (fold_saves env "pattern_detected" (extractPrefs msg)
      (setConv s uid (convOf s uid ++ [⟨"user", msg⟩])) 0).2 p hp hval
    cases llmExtract with
    | error e => exact h1
    | ok o =>
      cases o with
      | none => exact h1
      | some lp =>
        by_cases hc : lp ≠ "" ∧ lp ≠ "NONE"
        · simp only [processMessage]
          rw [if_pos hc]
          exact savedWith_save _ p "pattern_detected" lp "llm_detected"
            _ _ _ h1
        · simp only [processMessage]
          rw [if_neg hc]
          exact h1
  · intro lp hE hne hnN hlen
    subst hE
    have hval : ¬(lp = "" ∨ (pyStrip lp).length < 3) := by
      rintro (rfl | hlt)
      · exact hne rfl
      · omega
    simp only [processMessage]
    rw [if_pos ⟨hne, hnN⟩]
    exact save_adds _ lp "llm_detected" _ _ _ hval

/-- Witness for the amended C7: a long extracted preference is
persisted. -/
theorem processMessage_saves_valid_preferences_witness :
    savedWith (processMessage emptyBot "user1" "I love hiking in autumn"
      (.ok none) "resp" ⟨fun _ => "u1", fun _ => "t1", fun _ => "u2"⟩).1
      "hiking in autumn" "pattern_detected" :=
  (processMessage_saves_valid_preferences emptyBot "user1"
    "I love hiking in autumn" (.ok none) "resp"
    ⟨fun _ => "u1", fun _ => "t1", fun _ => "u2"⟩).1 "hiking in autumn"
    (by rw [show extractPrefs "I love hiking in autumn" =
        ["hiking in autumn"] from rfl]
        exact List.mem_singleton.mpr rfl)
    (by decide)
